import Mathlib

/-!
Shallow embedding of the Z3D binary recording decoder
(`mtpy/usgs/zen.py`): the GPS-stamp scanner of `Zen3D.read_z3d`, the
block-length reconciler `Zen3D.validate_time_blocks`, the GPS time
conversions `Zen3D.convert_gps_time` / `Zen3D.get_UTC_date_time`, the
header key parser of `Z3D_Header.read_header` and the schedule time
correction of `Z3D_Schedule_metadata.read_schedule_metadata`.

The word stream is modelled as a `List Int` of 32-bit signed words (no
arithmetic is ever performed on sample words, so plain `Int` is exact).
Python exceptions are modelled with `Except`.
-/

set_option linter.unusedVariables false

namespace Zen

/-- `_gps_flag_0 = np.int32(2147483647)`: first sentinel word. -/
def gps_flag_0 : Int := 2147483647

/-- `_gps_flag_1 = np.int32(-2147483648)`: second sentinel word. -/
def gps_flag_1 : Int := -2147483648

/-- `_gps_bytes = _gps_stamp_length/4 = 16`: stamp record length in words. -/
def gps_bytes : Nat := 16

/-- `np.where(data == self._gps_flag_0)[0]`: indices of all words equal to
the first sentinel, in increasing order. -/
def gps_stamp_find (data : List Int) : List Nat :=
  (List.range data.length).filter (fun i => data.get? i == some gps_flag_0)

/-- One extracted GPS stamp record: its word position in the scanned
stream, the 16 raw words packed by `struct.pack` at extraction time, and
the `block_len` value written over the record's last field by the loop. -/
structure Stamp where
  pos : Nat
  words : List Int
  block_len : Int
deriving Repr, DecidableEq

/-- The raw 32-bit GPS counter: word 2 of the record (`time` field of
`_gps_dtype`, bytes 8..11). -/
def Stamp.timeWord (s : Stamp) : Int := s.words.getD 2 0

/-- `data[p:p+n] = 0`: numpy slice assignment, clipped at the end of the
array. -/
def zeroRange : List Int → Nat → Nat → List Int
  | [], _, _ => []
  | _ :: xs, 0, Nat.succ n => 0 :: zeroRange xs 0 n
  | x :: xs, 0, 0 => x :: xs
  | x :: xs, Nat.succ p, n => x :: zeroRange xs p n

/-- Pair every stamp position with the previous one
(`gps_stamp_find[ii-1]`, absent for `ii = 0`). -/
def withPrev (ps : List Nat) : List (Nat × Option Nat) :=
  ps.zip (none :: ps.map some)

/-- The extraction loop of `Zen3D.read_z3d` (`for ii, gps_find in
enumerate(gps_stamp_find)`): probe the word after the candidate (break on
`IndexError`, leaving the remaining rows of the pre-allocated zero array
untouched, modelled as `none` rows); when it equals the second sentinel,
pack the 16 words at the candidate into a record, overwrite its
`block_len` with `gps_find - gps_stamp_find[ii-1] - 16` (`0` for the
first row) and zero the record's words in the stream; otherwise leave the
zero row (`none`) and the stream untouched. Returns the mutated stream
and the rows of `self.gps_stamps`. -/
def scanLoop : List Int → List (Nat × Option Nat) → List Int × List (Option Stamp)
  | data, [] => (data, [])
  | data, (p, prev) :: rest =>
    match data.get? (p + 1) with
    | none => (data, List.replicate (rest.length + 1) none)
    | some w =>
      if w = gps_flag_1 then
        let st : Stamp :=
          ⟨p, (data.drop p).take gps_bytes,
            match prev with
            | none => 0
            | some pv => (p : Int) - (pv : Int) - (gps_bytes : Int)⟩
        let res := scanLoop (zeroRange data p gps_bytes) rest
        (res.1, some st :: res.2)
      else
        let res := scanLoop data rest
        (res.1, none :: res.2)

/-- Errors raised by the decode pipeline. -/
inductive ZenErr where
  | indexError
  | attributeError
deriving Repr, DecidableEq

/-- `block_len` of a row of `self.gps_stamps`: a row left at its
`np.zeros` initialisation reads as `0`. -/
def rowBlockLen : Option Stamp → Int
  | none => 0
  | some s => s.block_len

/-- State of the `Zen3D` object after the scan: the stamp rows, the
sample sequence `self.ts_obj.ts`, and the `self.time_series` attribute,
which `read_z3d` never assigns (`none`). -/
structure ZenState where
  gps_stamps : List (Option Stamp)
  ts : List Int
  time_series : Option (List Int)
deriving Repr, DecidableEq

/-- `sum(block_len for stamps[1:])`. -/
def blockLenSumTail (rows : List (Option Stamp)) : Int :=
  ((rows.drop 1).map rowBlockLen).sum

/-- `Zen3D.validate_time_blocks`: `bad_blocks` are the indices `i` with
`gps_stamps['block_len'][1:][i] != ad_rate`; when nonempty and
`bad_blocks.max() < 5`, the method computes
`ts_skip = gps_stamps['block_len'][0:bad_blocks[-1]+1].sum()`, slices
`gps_stamps = gps_stamps[bad_blocks[-1]:]` and then evaluates
`self.time_series[ts_skip:]`; since `read_z3d` never assigns
`self.time_series`, that access raises `AttributeError`. -/
def validate_time_blocks (ad_rate : Int) (s : ZenState) : Except ZenErr ZenState :=
  let rows := s.gps_stamps
  let bad_blocks := (List.range (rows.length - 1)).filter
      (fun i => !(rowBlockLen (rows.getD (i + 1) none) == ad_rate))
  match bad_blocks.getLast? with
  | none => .ok s
  | some bLast =>
    if bad_blocks.foldr Nat.max 0 < 5 then
      let ts_skip := ((rows.take (bLast + 1)).map rowBlockLen).sum
      let rows2 := rows.drop bLast
      match s.time_series with
      | none => .error .attributeError
      | some tser =>
          .ok { s with gps_stamps := rows2,
                       time_series := some (tser.drop ts_skip.toNat) }
    else .ok s

/-- The scan pass of `read_z3d` on the stream that remains after the
leading trim: find the sentinels, run the extraction loop, and keep the
nonzero words as the sample sequence (`data[np.nonzero(data)]`). -/
def scan_pass (data1 : List Int) : ZenState :=
  let res := scanLoop data1 (withPrev (gps_stamp_find data1))
  ⟨res.2, res.1.filter (fun x => !(x == 0)), none⟩

/-- `Zen3D.read_z3d` from the point where the word stream is in memory:
`data = data[gps_stamp_find[3]:]` (an uncaught `IndexError` when there
are fewer than four sentinel occurrences), re-scan, run the extraction
loop, filter the nonzero words, then `validate_time_blocks`.  The
mV conversion rescales sample values without changing the sequence
length and is omitted. -/
def read_z3d (data : List Int) (ad_rate : Int) : Except ZenErr ZenState :=
  match (gps_stamp_find data).get? 3 with
  | none => .error .indexError
  | some p3 => validate_time_blocks ad_rate (scan_pass (data.drop p3))

/-! GPS time conversion (`Zen3D.convert_gps_time`, lines 1040-1055).
Device floats are modelled by exact rationals; `1.024` is `128 / 125`. -/

/-- The arithmetic applied to one raw counter value by
`Zen3D.convert_gps_time`:
`time_conv = time/1024.`, `time_ms = (time_conv - floor(time_conv))*1.024`,
`time_conv = floor(time_conv) + time_ms`. -/
def convert_gps_time_val (t : ℚ) : ℚ :=
  let time_conv := t / 1024
  let time_ms := (time_conv - ⌊time_conv⌋) * (128 / 125)
  ⌊time_conv⌋ + time_ms

/-- The `time` field of a row of `self.gps_stamps`; a zeros row reads 0. -/
def rowTimeWord : Option Stamp → Int
  | none => 0
  | some s => s.timeWord

/-- `Zen3D.convert_gps_time`: `self.gps_stamps['time'][:] = time_conv`,
the conversion applied to the time field of every row of the (already
validated) stamp array. -/
def convert_gps_time (rows : List (Option Stamp)) : List ℚ :=
  rows.map (fun r => convert_gps_time_val ((rowTimeWord r : ℚ)))

/-- The conversion as the spec sentence words it: floor of `ticks/1024`
plus the fractional part of `ticks/1024` multiplied by `1.024`.  Stated
with `Int.fract` for comparison against `convert_gps_time_val`. -/
def specGpsSeconds (t : Int) : ℚ :=
  ⌊(t : ℚ) / 1024⌋ + Int.fract ((t : ℚ) / 1024) * (128 / 125)

/-! UTC derivation (`Zen3D.get_UTC_date_time`, lines 1112-1165).  The
returned quantity is the absolute time in seconds; the final
`time.strftime` formatting of that quantity is not modelled. -/

/-- `_week_len = 604800` seconds. -/
def week_len : Int := 604800

/-- `time.mktime(self._gps_epoch) - time.timezone` with
`_gps_epoch = (1980, 1, 6, 0, 0, 0, -1, -1, 0)`: the Unix timestamp of
1980-01-06 00:00:00 UTC, the epoch of GPS week zero. -/
def gps_epoch_seconds : Int := 315964800

/-- The week rollover of `get_UTC_date_time`:
`if gps_time > self._week_len: gps_week += 1; gps_time -= self._week_len`. -/
def utcRollPair (gps_week : Int) (gps_time : ℚ) : Int × ℚ :=
  if (week_len : ℚ) < gps_time then (gps_week + 1, gps_time - (week_len : ℚ))
  else (gps_week, gps_time)

/-- `Zen3D.get_UTC_date_time` as the absolute epoch-seconds value it
formats: the rollover, then
`epoch_seconds + gps_week*week_len + gps_time - leap_seconds`.
`leap_seconds` is the instance attribute `self._leap_seconds`, taken here
as a parameter. -/
def get_UTC_date_time (gps_week : Int) (gps_time : ℚ) (leap_seconds : Int) : ℚ :=
  let wt := utcRollPair gps_week gps_time
  (gps_epoch_seconds : ℚ) + (wt.1 : ℚ) * (week_len : ℚ) + wt.2 - (leap_seconds : ℚ)

/-! Schedule time correction
(`Z3D_Schedule_metadata.read_schedule_metadata`, lines 298-309).  The
`Time` value is the string `HH:MM:SS`; the code keeps the first six
characters and reformats `int(Time[6:]) + 2` with `'{1:02}'`. -/

/-- Two-digit decimal rendering, `'{0:02}'.format(n)` for `n < 100`. -/
def format02 (n : Nat) : List Char := [Nat.digitChar (n / 10), Nat.digitChar (n % 10)]

/-- `int(..)` on a two-character decimal string. -/
def pyInt2 : List Char → Nat
  | [a, b] => 10 * (a.toNat - 48) + (b.toNat - 48)
  | _ => 0

/-- The unconditional parse-time correction
`self.Time = '{0}{1:02}'.format(self.Time[0:6], int(self.Time[6:]) + 2)`. -/
def schedule_Time_correction (cs : List Char) : List Char :=
  cs.take 6 ++ format02 (pyInt2 ((cs.drop 6).take 2) + 2)

/-- Render `HH:MM:SS`. -/
def fmtHMS (h m s : Nat) : List Char :=
  format02 h ++ ':' :: format02 m ++ ':' :: format02 s

/-- The time of day denoted by an `HH:MM:SS` string, as a second count
(seconds fields beyond 59 roll into the minute naturally, which is how
`time.mktime` later normalises them). -/
def parseHMS (cs : List Char) : Nat :=
  3600 * pyInt2 (cs.take 2) + 60 * pyInt2 (((cs.drop 3)).take 2) +
    pyInt2 ((cs.drop 6).take 2)

/-! Header parsing (`Z3D_Header.read_header`, lines 136-167). -/

/-- `_header_len = 512`. -/
def header_len : Nat := 512

/-- `str.find(c)`: index of the first occurrence, `-1` when absent. -/
def pyFind : List Char → Char → Int
  | [], _ => -1
  | a :: l, c =>
    if a = c then 0
    else
      let r := pyFind l c
      if r < 0 then -1 else r + 1

/-- Python `str.strip()`: leading and trailing whitespace removed. -/
def pyStrip (cs : List Char) : List Char :=
  ((cs.dropWhile Char.isWhitespace).reverse.dropWhile Char.isWhitespace).reverse

/-- The key derivation of the header loop, for one line:
`if h_str.find('=') > 0`, key `= h_list[0].strip().lower()` then
`.replace(' ', '_').replace('/', '').replace('.', '_')`; lines failing
the `find` test set no attribute. -/
def header_key_of_line (line : List Char) : Option (List Char) :=
  if 0 < pyFind line '=' then
    some (((((pyStrip (line.takeWhile (fun c => !(c == '=')))).map
        Char.toLower).map (fun c => if c = ' ' then '_' else c)).filter
        (fun c => !(c == '/'))).map (fun c => if c = '.' then '_' else c))
  else none

/-- The key derivation as the spec sentence words it: every line
containing `=` yields the lower-cased, stripped left-hand side with
spaces turned to underscores and both `/` and `.` characters removed;
lines without `=` yield no key. -/
def specHeaderKeyOfLine (line : List Char) : Option (List Char) :=
  if '=' ∈ line then
    some (((((pyStrip (line.takeWhile (fun c => !(c == '=')))).map
        Char.toLower).map (fun c => if c = ' ' then '_' else c)).filter
        (fun c => !(c == '/') && !(c == '.'))))
  else none

/-- Key derivation as the code actually behaves, in one pass: lines whose
first `=` is at position zero (or absent) yield no key; otherwise the
stripped lower-cased left-hand side with `/` dropped and both spaces and
periods turned to underscores. -/
def amendedHeaderKeyOfLine (line : List Char) : Option (List Char) :=
  if '=' ∈ line ∧ line.head? ≠ some '=' then
    some (((pyStrip (line.takeWhile (fun c => !(c == '=')))).map
        Char.toLower).filterMap (fun c =>
          if c = '/' then none
          else if c = ' ' ∨ c = '.' then some '_' else some c))
  else none

/-- The header block read of `Z3D_Header.read_header`:
`self.fid.seek(0); self.header_str = self.fid.read(self._header_len)`.
A Python `read(n)` past end of file returns the available bytes and
raises nothing, so the function is total; the `Except` codomain records
that the read has no error path. -/
def read_header_block (contents : List Char) : Except ZenErr (List Char) :=
  .ok (contents.take header_len)

/-! Synthetic well-formed streams, used to settle the sample-count
invariant: a body is a first stamp record, then alternating sample
blocks and stamp records, then trailing words. -/

/-- A stamp record image in the stream: the two sentinels and 14 payload
words. -/
def mkStamp (payload : List Int) : List Int := gps_flag_0 :: gps_flag_1 :: payload

/-- Stream tail after the first stamp: each segment is a sample block
followed by a stamp record, and the stream ends with trailing words. -/
def bodyFrom : List (List Int × List Int) → List Int → List Int
  | [], trailing => trailing
  | (b, pl) :: rest, trailing => b ++ (mkStamp pl ++ bodyFrom rest trailing)

/-- Positions of the segment stamps inside `bodyFrom segs trailing`,
relative to its start. -/
def posBody : List (List Int × List Int) → List Nat
  | [] => []
  | (b, _) :: rest => b.length :: (posBody rest).map (fun x => b.length + 16 + x)

/-- `bodyFrom` with every stamp record replaced by zeros, the state of
the stream once the extraction loop has consumed it. -/
def zeroBody : List (List Int × List Int) → List Int → List Int
  | [], trailing => trailing
  | (b, _) :: rest, trailing => b ++ (List.replicate 16 0 ++ zeroBody rest trailing)

/-- The rows the extraction loop produces for the segment stamps, given
the offset `k` of the current segment list and the absolute position
`pv` of the previous stamp. -/
def rowsSpec : List (List Int × List Int) → Nat → Nat → List (Option Stamp)
  | [], _, _ => []
  | (b, pl) :: rest, k, pv =>
    some ⟨k + b.length, mkStamp pl,
        ((k + b.length : Nat) : Int) - (pv : Int) - (gps_bytes : Int)⟩ ::
      rowsSpec rest (k + b.length + 16) (k + b.length)

/-- A stamp payload: 14 words, none of them the first sentinel. -/
abbrev okPayload (pl : List Int) : Prop :=
  pl.length = 14 ∧ ∀ w ∈ pl, w ≠ gps_flag_0

/-- Sample words: not the sentinel (no false stamp candidates) and not
zero (not discarded by the final nonzero filter). -/
abbrev okFill (b : List Int) : Prop := ∀ w ∈ b, w ≠ gps_flag_0 ∧ w ≠ 0

/-- A concrete leading-artifact region: three spurious sentinel
occurrences, as the fixed three-stamp trim of `read_z3d` expects. -/
def junkWords : List Int := [gps_flag_0, 1, gps_flag_0, 1, gps_flag_0, 1]

/-- Stamp positions paired with their predecessor, starting from a given
previous position. -/
def pairsFrom (prev : Option Nat) (ps : List Nat) : List (Nat × Option Nat) :=
  ps.zip (prev :: ps.map some)


/-! ## Groundwork lemmas -/

theorem zeroRange_get? (l : List Int) (p n i : Nat) :
    (zeroRange l p n).get? i =
      if p ≤ i ∧ i < p + n then (l.get? i).map (fun _ => (0 : Int)) else l.get? i := by
  induction l generalizing p n i with
  | nil => simp [zeroRange]
  | cons x xs ih =>
    match p, n with
    | 0, 0 =>
      show (x :: xs).get? i = _
      rw [if_neg (by omega)]
    | 0, Nat.succ n =>
      match i with
      | 0 => simp [zeroRange]
      | Nat.succ i =>
        show (0 :: zeroRange xs 0 n).get? (i+1) = _
        rw [List.get?_cons_succ, ih 0 n i, List.get?_cons_succ]
        by_cases h : i < n
        · rw [if_pos (by omega), if_pos (by omega)]
        · rw [if_neg (by omega), if_neg (by omega)]
    | Nat.succ p, n =>
      match i with
      | 0 =>
        show (x :: zeroRange xs p n).get? 0 = _
        rw [if_neg (by omega)]
        rfl
      | Nat.succ i =>
        show (x :: zeroRange xs p n).get? (i+1) = _
        rw [List.get?_cons_succ, ih p n i, List.get?_cons_succ]
        by_cases h : p ≤ i ∧ i < p + n
        · rw [if_pos h, if_pos (by omega)]
        · rw [if_neg h, if_neg (by omega)]

theorem zeroRange_length (l : List Int) (p n : Nat) :
    (zeroRange l p n).length = l.length := by
  induction l generalizing p n with
  | nil => rfl
  | cons x xs ih =>
    match p, n with
    | 0, 0 => rfl
    | 0, Nat.succ n => simp [zeroRange, ih]
    | Nat.succ p, n => simp [zeroRange, ih]

theorem gps_stamp_find_mem (d : List Int) (i : Nat) :
    i ∈ gps_stamp_find d ↔ d.get? i = some gps_flag_0 := by
  simp only [gps_stamp_find, List.mem_filter, List.mem_range, beq_iff_eq]
  constructor
  · exact fun h => h.2
  · exact fun h => ⟨(List.get?_eq_some.mp h).1, h⟩

theorem gps_stamp_find_pairwise (d : List Int) :
    (gps_stamp_find d).Pairwise (· < ·) :=
  (List.pairwise_lt_range d.length).filter _

theorem gps_stamp_find_drop (d : List Int) (k : Nat) (hk : k ≤ d.length) :
    gps_stamp_find (d.drop k) =
      ((gps_stamp_find d).filter (fun p => decide (k ≤ p))).map (fun p => p - k) := by
  unfold gps_stamp_find
  have hlen : (d.drop k).length = d.length - k := by simp
  have hrange : List.range d.length =
      List.range k ++ (List.range (d.length - k)).map (fun x => k + x) := by
    rw [← List.range_add]; congr 1; omega
  rw [hlen, hrange, List.filter_append, List.filter_append, List.map_append]
  have h1 : ((List.range k).filter (fun i => d.get? i == some gps_flag_0)).filter
      (fun p => decide (k ≤ p)) = [] := by
    rw [List.filter_eq_nil]
    intro a ha
    have h2 := List.mem_range.mp (List.mem_filter.mp ha).1
    simp only [decide_eq_true_eq]
    omega
  rw [h1, List.map_nil, List.nil_append, List.filter_map, List.filter_map]
  have h2 : ∀ (q : Nat → Bool), ((List.range (d.length - k)).filter
        (q ∘ (fun x => k + x))).filter ((fun p => decide (k ≤ p)) ∘ (fun x => k + x)) =
      (List.range (d.length - k)).filter (q ∘ (fun x => k + x)) := by
    intro q
    rw [List.filter_filter]
    apply List.filter_congr
    intro a _
    simp
  rw [show ((List.range (d.length - k)).filter ((fun i => d.get? i == some gps_flag_0) ∘ fun x => k + x)).filter ((fun p => decide (k ≤ p)) ∘ fun x => k + x) = _ from h2 _]
  rw [List.map_map]
  have h3 : ((fun p => p - k) ∘ fun x => k + x) = fun x : Nat => x := by
    funext x; simp
  rw [h3, List.map_id']
  apply List.filter_congr
  intro a _
  simp only [Function.comp_apply]
  congr 1
  rw [List.get?_eq_getElem?, List.get?_eq_getElem?, List.getElem?_drop]

theorem sorted_filter_ge_drop : ∀ (L : List Nat) (j v : Nat),
    L.Pairwise (· < ·) → L.get? j = some v →
    L.filter (fun x => decide (v ≤ x)) = L.drop j := by
  intro L
  induction L with
  | nil => intro j v _ h; simp at h
  | cons a t ih =>
    intro j v hp hg
    match j with
    | 0 =>
      have hv : a = v := by simpa using hg
      subst hv
      rw [List.drop_zero, List.filter_cons]
      rw [if_pos (by simp)]
      congr 1
      rw [List.filter_eq_self]
      intro x hx
      have := (List.pairwise_cons.mp hp).1 x hx
      simp only [decide_eq_true_eq]
      omega
    | Nat.succ j =>
      rw [List.get?_cons_succ] at hg
      have hv : v ∈ t := List.get?_mem hg
      have hav : a < v := (List.pairwise_cons.mp hp).1 v hv
      rw [List.drop_succ_cons, List.filter_cons, if_neg (by simp; omega)]
      exact ih j v (List.pairwise_cons.mp hp).2 hg


/-! ## C10: fewer than four sentinel occurrences -/

/-- C10: for every input stream with fewer than four occurrences of the
first sentinel, the decode returns no result or diagnostic: the fixed
three-stamp leading trim `data[gps_stamp_find[3]:]` fails with an
uncaught out-of-bounds indexing error. -/
theorem c10_short_stream_index_error (data : List Int) (ad_rate : Int)
    (h : (gps_stamp_find data).length < 4) :
    read_z3d data ad_rate = .error .indexError := by
  have h3 : (gps_stamp_find data).get? 3 = none := List.get?_eq_none.mpr (by omega)
  simp only [read_z3d, h3]

/-- C10 witness: a stream with three sentinel words. -/
theorem c10_witness :
    read_z3d [1, gps_flag_0, gps_flag_0, gps_flag_0] 256 = .error .indexError :=
  c10_short_stream_index_error [1, gps_flag_0, gps_flag_0, gps_flag_0] 256 (by decide)

/-! ## C4: the fixed three-stamp leading trim -/

/-- C4: with at least four detected sentinel occurrences, the decoder
drops the stream up to the fourth occurrence (discarding the first three
detected stamps regardless of their contents) and proceeds on the
re-scan of the remaining stream; that re-scan finds exactly the old
occurrences from the fourth on, shifted to the new origin. -/
theorem c4_leading_trim (data : List Int) (ad_rate : Int)
    (h : 4 ≤ (gps_stamp_find data).length) :
    read_z3d data ad_rate =
        validate_time_blocks ad_rate
          (scan_pass (data.drop ((gps_stamp_find data).getD 3 0)))
      ∧ gps_stamp_find (data.drop ((gps_stamp_find data).getD 3 0)) =
        ((gps_stamp_find data).drop 3).map
          (fun p => p - (gps_stamp_find data).getD 3 0) := by
  set P := gps_stamp_find data with hP
  have h3 : P.get? 3 = some (P.getD 3 0) := by
    cases hh : P.get? 3 with
    | none => exact absurd (List.get?_eq_none.mp hh) (by omega)
    | some v => rw [List.getD_eq_get?, hh]; rfl
  constructor
  · simp only [read_z3d, ← hP, h3]
  · set k := P.getD 3 0 with hk
    have hmem : k ∈ P := List.get?_mem h3
    have hklen : k ≤ data.length := by
      have := (List.get?_eq_some.mp ((gps_stamp_find_mem data k).mp hmem)).1
      omega
    rw [gps_stamp_find_drop data k hklen, ← hP]
    rw [sorted_filter_ge_drop P 3 k (gps_stamp_find_pairwise data) h3]

/-- C4 witness: four sentinel words then a sample. -/
theorem c4_witness :
    read_z3d [gps_flag_0, gps_flag_0, gps_flag_0, gps_flag_0, 1] 7 =
        validate_time_blocks 7
          (scan_pass ([gps_flag_0, gps_flag_0, gps_flag_0, gps_flag_0, 1].drop
            ((gps_stamp_find [gps_flag_0, gps_flag_0, gps_flag_0, gps_flag_0, 1]).getD 3 0)))
      ∧ gps_stamp_find ([gps_flag_0, gps_flag_0, gps_flag_0, gps_flag_0, 1].drop
            ((gps_stamp_find [gps_flag_0, gps_flag_0, gps_flag_0, gps_flag_0, 1]).getD 3 0)) =
        ((gps_stamp_find [gps_flag_0, gps_flag_0, gps_flag_0, gps_flag_0, 1]).drop 3).map
          (fun p => p - (gps_stamp_find [gps_flag_0, gps_flag_0, gps_flag_0, gps_flag_0, 1]).getD 3 0) :=
  c4_leading_trim [gps_flag_0, gps_flag_0, gps_flag_0, gps_flag_0, 1] 7 (by decide)


/-! ## C5: tick counter conversion -/

/-- C5: the conversion of `convert_gps_time` turns a raw counter value t
into floor(t/1024) plus the fractional part of t/1024 multiplied by
1.024, and it is applied to the time field of every retained stamp row. -/
theorem c5_tick_conversion :
    (∀ rows : List (Option Stamp),
        convert_gps_time rows = rows.map (fun r => specGpsSeconds (rowTimeWord r)))
    ∧ ∀ t : Int, convert_gps_time_val (t : ℚ) = specGpsSeconds t := by
  refine ⟨fun rows => ?_, fun t => rfl⟩
  unfold convert_gps_time
  exact List.map_congr_left (fun r _ => rfl)

/-! ## C6: GPS week rollover and absolute UTC -/

/-- C6: seconds-of-week beyond 604800 roll the week forward by one and
lose a week of seconds, and the absolute time in epoch seconds always
equals the GPS epoch (1980-01-06) plus gps_week weeks plus the original
seconds-of-week minus the leap-second offset. -/
theorem c6_utc_derivation (gps_week : Int) (gps_time : ℚ) (leap_seconds : Int) :
    ((week_len : ℚ) < gps_time →
        utcRollPair gps_week gps_time = (gps_week + 1, gps_time - (week_len : ℚ)))
    ∧ get_UTC_date_time gps_week gps_time leap_seconds =
        (gps_epoch_seconds : ℚ) + (gps_week : ℚ) * 604800 + gps_time -
          (leap_seconds : ℚ) := by
  constructor
  · intro h; simp [utcRollPair, h]
  · unfold get_UTC_date_time utcRollPair
    split
    · show (gps_epoch_seconds : ℚ) + ((gps_week + 1 : Int) : ℚ) * (week_len : ℚ) +
          (gps_time - (week_len : ℚ)) - _ = _
      have hw : ((week_len : Int) : ℚ) = 604800 := by norm_num [week_len]
      rw [hw]; push_cast; ring
    · show (gps_epoch_seconds : ℚ) + ((gps_week : Int) : ℚ) * (week_len : ℚ) +
          gps_time - _ = _
      have hw : ((week_len : Int) : ℚ) = 604800 := by norm_num [week_len]
      rw [hw]

/-- C6 witness at week 1854, 700000 seconds (beyond one week), 16 leap
seconds. -/
theorem c6_witness :
    ((week_len : ℚ) < 700000 →
        utcRollPair 1854 700000 = (1854 + 1, 700000 - (week_len : ℚ)))
    ∧ get_UTC_date_time 1854 700000 16 =
        (gps_epoch_seconds : ℚ) + (1854 : ℚ) * 604800 + 700000 - (16 : ℚ) :=
  c6_utc_derivation 1854 700000 16

/-! ## C7: the two-second schedule time correction -/

/-- Decimal digits render to their character and back. -/
theorem digitChar_toNat (d : Nat) (h : d < 10) : (Nat.digitChar d).toNat = 48 + d := by
  interval_cases d <;> rfl

/-- Two-digit round trip for `int` after `'{0:02}'.format`. -/
theorem pyInt2_format02 (n : Nat) (h : n ≤ 99) : pyInt2 (format02 n) = n := by
  show 10 * ((n / 10).digitChar.toNat - 48) + ((n % 10).digitChar.toNat - 48) = n
  rw [digitChar_toNat _ (by omega), digitChar_toNat _ (by omega)]
  omega

/-- C7: the parsed Time field denotes a time of day exactly two seconds
later than the stored HH:MM:SS value, and the correction touches only
the seconds field (the first six characters are kept verbatim), applied
once at parse time. -/
theorem c7_schedule_time_plus_two (h m s : Nat)
    (hh : h ≤ 99) (hm : m ≤ 99) (hs : s ≤ 59) :
    parseHMS (schedule_Time_correction (fmtHMS h m s)) = parseHMS (fmtHMS h m s) + 2
    ∧ (schedule_Time_correction (fmtHMS h m s)).take 6 = (fmtHMS h m s).take 6 := by
  have e1 : fmtHMS h m s = Nat.digitChar (h/10) :: Nat.digitChar (h%10) :: ':' ::
      Nat.digitChar (m/10) :: Nat.digitChar (m%10) :: ':' ::
      Nat.digitChar (s/10) :: Nat.digitChar (s%10) :: [] := rfl
  have e2 : pyInt2 [Nat.digitChar (s/10), Nat.digitChar (s%10)] = s :=
    pyInt2_format02 s (by omega)
  have e3 : pyInt2 [Nat.digitChar (h/10), Nat.digitChar (h%10)] = h :=
    pyInt2_format02 h (by omega)
  have e4 : pyInt2 [Nat.digitChar (m/10), Nat.digitChar (m%10)] = m :=
    pyInt2_format02 m (by omega)
  rw [e1]
  constructor
  · show parseHMS (Nat.digitChar (h/10) :: Nat.digitChar (h%10) :: ':' ::
      Nat.digitChar (m/10) :: Nat.digitChar (m%10) :: ':' ::
      format02 (pyInt2 [Nat.digitChar (s/10), Nat.digitChar (s%10)] + 2)) = _
    rw [e2]
    show 3600 * pyInt2 [Nat.digitChar (h/10), Nat.digitChar (h%10)] +
        60 * pyInt2 [Nat.digitChar (m/10), Nat.digitChar (m%10)] +
        pyInt2 ((format02 (s+2)).take 2) = _
    have e5 : (format02 (s+2)).take 2 = format02 (s+2) := rfl
    rw [e5, e3, e4, pyInt2_format02 (s+2) (by omega)]
    show _ = 3600 * pyInt2 [Nat.digitChar (h/10), Nat.digitChar (h%10)] +
        60 * pyInt2 [Nat.digitChar (m/10), Nat.digitChar (m%10)] +
        pyInt2 [Nat.digitChar (s/10), Nat.digitChar (s%10)] + 2
    rw [e2, e3, e4]
    omega
  · rfl

/-- C7 witness at 08:00:59, where the corrected seconds field reads 61
and still denotes two seconds later. -/
theorem c7_witness :
    parseHMS (schedule_Time_correction (fmtHMS 8 0 59)) = parseHMS (fmtHMS 8 0 59) + 2
    ∧ (schedule_Time_correction (fmtHMS 8 0 59)).take 6 = (fmtHMS 8 0 59).take 6 :=
  c7_schedule_time_plus_two 8 0 59 (by decide) (by decide) (by decide)

/-! ## C8: header key derivation -/

theorem pyFind_nonneg_iff (l : List Char) (c : Char) : 0 ≤ pyFind l c ↔ c ∈ l := by
  induction l with
  | nil => simp [pyFind]
  | cons a t ih =>
    unfold pyFind
    by_cases h : a = c
    · subst h; simp
    · simp only [if_neg h]
      by_cases h2 : pyFind t c < 0
      · rw [if_pos h2]
        simp only [List.mem_cons]
        constructor
        · intro hx; omega
        · intro hx
          rcases hx with hx | hx
          · exact absurd hx.symm h
          · exact absurd (ih.mpr hx) (by omega)
      · rw [if_neg h2]
        simp only [List.mem_cons]
        constructor
        · intro _; right; exact ih.mp (by omega)
        · intro _; omega

theorem pyFind_pos_iff (l : List Char) (c : Char) :
    0 < pyFind l c ↔ c ∈ l ∧ l.head? ≠ some c := by
  cases l with
  | nil => simp [pyFind]
  | cons a t =>
    unfold pyFind
    by_cases h : a = c
    · subst h
      rw [if_pos rfl]
      simp
    · rw [if_neg h]
      simp only [List.head?_cons, List.mem_cons, ne_eq, Option.some.injEq]
      by_cases h2 : pyFind t c < 0
      · rw [if_pos h2]
        constructor
        · intro hx; exact absurd hx (by omega)
        · rintro ⟨hx | hx, hne⟩
          · exact absurd hx.symm h
          · exact absurd ((pyFind_nonneg_iff t c).mpr hx) (by omega)
      · rw [if_neg h2]
        constructor
        · intro _
          exact ⟨Or.inr ((pyFind_nonneg_iff t c).mp (by omega)), fun hx => h hx⟩
        · intro _; omega

theorem map_filter_eq_filterMap {α β : Type} (f : α → β) (p : α → Bool) (l : List α) :
    (l.filter p).map f = l.filterMap (fun a => if p a then some (f a) else none) := by
  induction l with
  | nil => rfl
  | cons a t ih =>
    by_cases h : p a
    · simp [List.filter_cons, List.filterMap_cons, h, ih]
    · simp [List.filter_cons, List.filterMap_cons, h, ih]

theorem transform_eq (l : List Char) :
    ((l.map (fun c => if c = ' ' then '_' else c)).filter
        (fun c => !(c == '/'))).map (fun c => if c = '.' then '_' else c) =
    l.filterMap (fun c =>
      if c = '/' then none
      else if c = ' ' ∨ c = '.' then some '_' else some c) := by
  rw [List.filter_map, List.map_map, map_filter_eq_filterMap]
  apply List.filterMap_congr
  intro c _
  by_cases h1 : c = '/'
  · subst h1; rfl
  · by_cases h2 : c = ' '
    · subst h2; rfl
    · by_cases h3 : c = '.'
      · subst h3; rfl
      · show (if ((fun c => !(c == '/')) ∘ fun c => if c = ' ' then '_' else c) c = true
            then some (((fun c => if c = '.' then '_' else c) ∘
              fun c => if c = ' ' then '_' else c) c) else none) = _
        simp only [Function.comp_apply, if_neg h2]
        rw [beq_eq_false_iff_ne.mpr h1]
        simp only [Bool.not_false, if_true]
        rw [if_neg h3, if_neg h1, if_neg (fun h => h.elim h2 h3)]

/-- C8 counterexample: the line `a.b=1` yields the key `a_b` (period
replaced by an underscore, not removed), and the line `=v`, which does
contain `=`, yields no key at all (the code requires the first `=` at a
positive index), while the spec wording yields `ab` and an (empty-keyed)
entry respectively. -/
theorem c8_counterexample :
    header_key_of_line ['a', '.', 'b', '=', '1'] = some ['a', '_', 'b']
    ∧ specHeaderKeyOfLine ['a', '.', 'b', '=', '1'] = some ['a', 'b']
    ∧ some ['a', '_', 'b'] ≠ some ['a', 'b']
    ∧ header_key_of_line ['=', 'v'] = none
    ∧ specHeaderKeyOfLine ['=', 'v'] ≠ none := by decide

/-- C8 amended: a line yields a key exactly when it contains `=` not as
its first character, and the key is the stripped lower-cased left-hand
side with `/` removed and both spaces and periods replaced by
underscores. -/
theorem c8_amended (line : List Char) :
    header_key_of_line line = amendedHeaderKeyOfLine line := by
  unfold header_key_of_line amendedHeaderKeyOfLine
  by_cases hc : 0 < pyFind line '='
  · rw [if_pos hc, if_pos ((pyFind_pos_iff line '=').mp hc), transform_eq]
  · rw [if_neg hc, if_neg (fun h => hc ((pyFind_pos_iff line '=').mpr h))]

/-! ## C9: short header reads -/

/-- C9 counterexample: a two-byte source is shorter than the fixed
header length, yet the header read completes without signalling any
error, returning the available bytes. -/
theorem c9_counterexample :
    (['a', 'b'] : List Char).length < header_len
    ∧ read_header_block ['a', 'b'] = Except.ok ['a', 'b'] :=
  ⟨by decide, rfl⟩

/-- C9 amended: reading the header of a source shorter than the header
length returns all available bytes and signals no error; no truncation
check exists in the reader. -/
theorem c9_amended_short_read (contents : List Char)
    (h : contents.length < header_len) :
    read_header_block contents = Except.ok contents := by
  unfold read_header_block
  rw [List.take_of_length_le (by simp only [header_len] at h ⊢; omega)]

/-- C9 witness: a one-byte source. -/
theorem c9_witness : read_header_block ['x'] = Except.ok ['x'] :=
  c9_amended_short_read ['x'] (by decide)


/-! ## C3: rejection of unconfirmed sentinel candidates -/

theorem scanLoop_nil (d : List Int) : scanLoop d [] = (d, []) := rfl

/-- One-step equation of the extraction loop. -/
theorem scanLoop_cons (d : List Int) (q : Nat) (prev : Option Nat)
    (rest : List (Nat × Option Nat)) :
    scanLoop d ((q, prev) :: rest) =
      match d.get? (q + 1) with
      | none => (d, List.replicate (rest.length + 1) none)
      | some w =>
        if w = gps_flag_1 then
          ((scanLoop (zeroRange d q gps_bytes) rest).1,
            some ⟨q, (d.drop q).take gps_bytes,
              match prev with
              | none => 0
              | some pv => (q : Int) - (pv : Int) - (gps_bytes : Int)⟩ ::
              (scanLoop (zeroRange d q gps_bytes) rest).2)
        else ((scanLoop d rest).1, none :: (scanLoop d rest).2) := rfl

theorem scanLoop_cons_break (d : List Int) (q : Nat) (prev : Option Nat)
    (rest : List (Nat × Option Nat)) (h : d.get? (q + 1) = none) :
    scanLoop d ((q, prev) :: rest) = (d, List.replicate (rest.length + 1) none) := by
  rw [scanLoop_cons, h]

theorem scanLoop_cons_confirm (d : List Int) (q : Nat) (prev : Option Nat)
    (rest : List (Nat × Option Nat)) (h : d.get? (q + 1) = some gps_flag_1) :
    scanLoop d ((q, prev) :: rest) =
      ((scanLoop (zeroRange d q gps_bytes) rest).1,
        some ⟨q, (d.drop q).take gps_bytes,
          match prev with
          | none => 0
          | some pv => (q : Int) - (pv : Int) - (gps_bytes : Int)⟩ ::
          (scanLoop (zeroRange d q gps_bytes) rest).2) := by
  rw [scanLoop_cons, h]
  dsimp only
  rw [if_pos rfl]

theorem scanLoop_cons_reject (d : List Int) (q : Nat) (prev : Option Nat)
    (rest : List (Nat × Option Nat)) (w : Int) (h : d.get? (q + 1) = some w)
    (hw : w ≠ gps_flag_1) :
    scanLoop d ((q, prev) :: rest) = ((scanLoop d rest).1, none :: (scanLoop d rest).2) := by
  rw [scanLoop_cons, h]
  dsimp only
  rw [if_neg hw]

/-- Core induction for C3: on any stream that differs from the original
only by zeroed words, a candidate whose original following word is not
the second sentinel is never extracted, and every word the loop changes
is changed to zero inside the record of some extracted stamp. -/
theorem scanLoop_reject_invariant (d0 : List Int) (p : Nat) (w : Int)
    (hp1 : d0.get? (p + 1) = some w) (hw : w ≠ gps_flag_1) :
    ∀ (ps : List (Nat × Option Nat)) (cur : List Int),
      (∀ i, cur.get? i = d0.get? i ∨ cur.get? i = some 0) →
      (∀ st : Stamp, some st ∈ (scanLoop cur ps).2 → st.pos ≠ p)
      ∧ (∀ i, (scanLoop cur ps).1.get? i = cur.get? i ∨
          ((scanLoop cur ps).1.get? i = some 0 ∧
            ∃ st : Stamp, some st ∈ (scanLoop cur ps).2 ∧
              st.pos ≤ i ∧ i < st.pos + gps_bytes)) := by
  intro ps
  induction ps with
  | nil =>
    intro cur hinv
    rw [scanLoop_nil]
    constructor
    · intro st hst; simp at hst
    · intro i; exact Or.inl rfl
  | cons qp rest ih =>
    intro cur hinv
    obtain ⟨q, prev⟩ := qp
    cases hq : cur.get? (q + 1) with
    | none =>
      rw [scanLoop_cons_break cur q prev rest hq]
      constructor
      · intro st hst
        have h2 := List.eq_of_mem_replicate hst
        exact absurd h2 (by simp)
      · intro i; exact Or.inl rfl
    | some w2 =>
      by_cases hw2 : w2 = gps_flag_1
      · subst hw2
        rw [scanLoop_cons_confirm cur q prev rest hq]
        have hqp : q ≠ p := by
          intro hqp
          subst hqp
          rcases hinv (q + 1) with hcase | hcase
          · rw [hq, hp1] at hcase
            exact hw (Option.some.inj hcase).symm
          · rw [hq] at hcase
            have h0 : gps_flag_1 = 0 := Option.some.inj hcase
            exact absurd h0 (by decide)
        have hinv2 : ∀ i, (zeroRange cur q gps_bytes).get? i = d0.get? i ∨
            (zeroRange cur q gps_bytes).get? i = some 0 := by
          intro i
          rw [zeroRange_get?]
          by_cases hin : q ≤ i ∧ i < q + gps_bytes
          · rw [if_pos hin]
            cases hci : cur.get? i with
            | none =>
              rcases hinv i with hc | hc
              · rw [hci] at hc
                exact Or.inl (by rw [← hc]; rfl)
              · rw [hci] at hc
                exact absurd hc (by simp)
            | some v => exact Or.inr rfl
          · rw [if_neg hin]; exact hinv i
        obtain ⟨ih1, ih2⟩ := ih (zeroRange cur q gps_bytes) hinv2
        constructor
        · intro st hst
          rcases List.mem_cons.mp hst with hst | hst
          · have he := Option.some.inj hst
            subst he
            intro hc
            exact hqp hc
          · exact ih1 st hst
        · intro i
          rcases ih2 i with hcase | ⟨hz, st, hst, hcov⟩
          · rw [hcase, zeroRange_get?]
            by_cases hin : q ≤ i ∧ i < q + gps_bytes
            · rw [if_pos hin]
              cases hci : cur.get? i with
              | none => exact Or.inl rfl
              | some v =>
                exact Or.inr ⟨rfl, _, List.mem_cons_self _ _, hin.1, hin.2⟩
            · rw [if_neg hin]; exact Or.inl rfl
          · exact Or.inr ⟨hz, st, List.mem_cons_of_mem _ hst, hcov⟩
      · rw [scanLoop_cons_reject cur q prev rest w2 hq hw2]
        obtain ⟨ih1, ih2⟩ := ih cur hinv
        constructor
        · intro st hst
          rcases List.mem_cons.mp hst with hst | hst
          · exact absurd hst.symm (by simp)
          · exact ih1 st hst
        · intro i
          rcases ih2 i with hcase | ⟨hz, st, hst, hcov⟩
          · exact Or.inl hcase
          · exact Or.inr ⟨hz, st, List.mem_cons_of_mem _ hst, hcov⟩


/-- C3: a word equal to the first sentinel whose immediately following
word is not the second sentinel is never treated as a stamp start: no
stamp record is extracted at that position, and every word the loop
zeroes lies inside the record of some extracted stamp (none of which
starts at that position), so the candidate's own words are never zeroed
on its account. -/
theorem c3_false_positive_rejected (data : List Int) (p : Nat) (w : Int)
    (hp0 : data.get? p = some gps_flag_0)
    (hp1 : data.get? (p + 1) = some w) (hw : w ≠ gps_flag_1) :
    (∀ st : Stamp, some st ∈ (scan_pass data).gps_stamps → st.pos ≠ p)
    ∧ (∀ i, (scanLoop data (withPrev (gps_stamp_find data))).1.get? i ≠ data.get? i →
        ∃ st : Stamp, some st ∈ (scan_pass data).gps_stamps ∧
          st.pos ≤ i ∧ i < st.pos + gps_bytes) := by
  have h := scanLoop_reject_invariant data p w hp1 hw
    (withPrev (gps_stamp_find data)) data (fun i => Or.inl rfl)
  constructor
  · intro st hst
    exact h.1 st hst
  · intro i hne
    rcases h.2 i with hc | ⟨hz, st, hst, hcov⟩
    · exact absurd hc hne
    · exact ⟨st, hst, hcov⟩

/-- C3 witness: the stream with one sentinel word followed by a plain
sample word; no stamp is extracted at position 0. -/
theorem c3_witness :
    some (⟨0, [gps_flag_0, 5, 3], 0⟩ : Stamp) ∉ (scan_pass [gps_flag_0, 5, 3]).gps_stamps :=
  fun hmem =>
    (c3_false_positive_rejected [gps_flag_0, 5, 3] 0 5 rfl rfl (by decide)).1 _ hmem rfl


/-! ## C2 groundwork: sentinel positions of structured streams -/

theorem gps_stamp_find_nil_of_no_flag (l : List Int) (h : ∀ w ∈ l, w ≠ gps_flag_0) :
    gps_stamp_find l = [] := by
  rw [gps_stamp_find, List.filter_eq_nil]
  intro i hi
  simp only [beq_iff_eq]
  cases hg : l.get? i with
  | none => simp
  | some v =>
    have hv : v ∈ l := List.get?_mem hg
    simp only [Option.some.injEq]
    exact h v hv

theorem gps_stamp_find_append (xs ys : List Int) :
    gps_stamp_find (xs ++ ys) =
      gps_stamp_find xs ++ (gps_stamp_find ys).map (fun i => xs.length + i) := by
  unfold gps_stamp_find
  have hlen : (xs ++ ys).length = xs.length + ys.length := by simp
  have hrange : List.range (xs.length + ys.length) =
      List.range xs.length ++ (List.range ys.length).map (fun x => xs.length + x) := by
    rw [← List.range_add]
  rw [hlen, hrange, List.filter_append]
  congr 1
  · apply List.filter_congr
    intro i hi
    have hi2 := List.mem_range.mp hi
    congr 1
    rw [List.get?_append hi2]
  · rw [List.filter_map]
    congr 1
    apply List.filter_congr
    intro i hi
    simp only [Function.comp_apply]
    congr 1
    rw [List.get?_append_right (by omega)]
    congr 1
    omega

theorem gps_stamp_find_singleton (x : Int) :
    gps_stamp_find [x] = if x = gps_flag_0 then [0] else [] := by
  by_cases hx : x = gps_flag_0
  · subst hx; rw [if_pos rfl]; rfl
  · rw [if_neg hx]
    exact gps_stamp_find_nil_of_no_flag [x] (by intro w hw; rw [List.mem_singleton.mp hw]; exact hx)

theorem gps_stamp_find_cons_flag (l : List Int) :
    gps_stamp_find (gps_flag_0 :: l) = 0 :: (gps_stamp_find l).map (fun i => 1 + i) := by
  have h := gps_stamp_find_append [gps_flag_0] l
  simp only [List.singleton_append] at h
  rw [h, gps_stamp_find_singleton, if_pos rfl]
  rfl

theorem gps_stamp_find_cons_nonflag (x : Int) (l : List Int) (hx : x ≠ gps_flag_0) :
    gps_stamp_find (x :: l) = (gps_stamp_find l).map (fun i => 1 + i) := by
  have h := gps_stamp_find_append [x] l
  simp only [List.singleton_append] at h
  rw [h, gps_stamp_find_singleton, if_neg hx]
  rfl

/-- Sentinel positions of a stamp record followed by arbitrary data whose
positions are known. -/
theorem gps_stamp_find_mkStamp_append (pl : List Int) (z : List Int)
    (hpl : okPayload pl) :
    gps_stamp_find (mkStamp pl ++ z) =
      0 :: (gps_stamp_find z).map (fun i => 16 + i) := by
  have e : mkStamp pl ++ z = gps_flag_0 :: gps_flag_1 :: (pl ++ z) := rfl
  rw [e, gps_stamp_find_cons_flag,
    gps_stamp_find_cons_nonflag gps_flag_1 (pl ++ z) (by decide),
    gps_stamp_find_append pl z, gps_stamp_find_nil_of_no_flag pl hpl.2,
    List.nil_append, hpl.1]
  simp only [List.map_map, List.map_map]
  congr 1
  apply List.map_congr_left
  intro i _
  simp only [Function.comp_apply]
  omega

/-- Sentinel positions of `bodyFrom`. -/
theorem gps_stamp_find_bodyFrom (segs : List (List Int × List Int)) (trailing : List Int)
    (hsegs : ∀ s ∈ segs, (∀ w ∈ s.1, w ≠ gps_flag_0) ∧ okPayload s.2)
    (htrail : ∀ w ∈ trailing, w ≠ gps_flag_0) :
    gps_stamp_find (bodyFrom segs trailing) = posBody segs := by
  induction segs with
  | nil => exact gps_stamp_find_nil_of_no_flag trailing htrail
  | cons s rest ih =>
    obtain ⟨b, pl⟩ := s
    have hb := (hsegs (b, pl) (List.mem_cons_self _ _)).1
    have hpl := (hsegs (b, pl) (List.mem_cons_self _ _)).2
    have hrest : ∀ s ∈ rest, (∀ w ∈ s.1, w ≠ gps_flag_0) ∧ okPayload s.2 :=
      fun s hs => hsegs s (List.mem_cons_of_mem _ hs)
    show gps_stamp_find (b ++ (mkStamp pl ++ bodyFrom rest trailing)) = _
    rw [gps_stamp_find_append, gps_stamp_find_nil_of_no_flag b hb, List.nil_append,
      gps_stamp_find_mkStamp_append pl (bodyFrom rest trailing) hpl, ih hrest]
    show (0 :: (posBody rest).map (fun i => 16 + i)).map (fun i => b.length + i) =
      b.length :: (posBody rest).map (fun x => b.length + 16 + x)
    simp only [List.map_cons, List.map_map, Nat.add_zero]
    congr 1
    apply List.map_congr_left
    intro i _
    simp only [Function.comp_apply]
    omega


/-! ## C2 groundwork: zeroing of structured streams -/

theorem zeroRange_zero_zero (l : List Int) : zeroRange l 0 0 = l := by
  cases l <;> rfl

theorem zeroRange_append_zero (xs ys : List Int) :
    zeroRange (xs ++ ys) 0 xs.length = List.replicate xs.length 0 ++ ys := by
  induction xs with
  | nil => exact zeroRange_zero_zero ys
  | cons x xs ih =>
    show zeroRange (x :: (xs ++ ys)) 0 (xs.length + 1) = 0 :: (List.replicate xs.length 0 ++ ys)
    show 0 :: zeroRange (xs ++ ys) 0 xs.length = _
    rw [ih]

theorem zeroRange_append_offset (xs ys : List Int) (n : Nat) :
    zeroRange (xs ++ ys) xs.length n = xs ++ zeroRange ys 0 n := by
  induction xs with
  | nil => rfl
  | cons x xs ih =>
    show zeroRange (x :: (xs ++ ys)) (xs.length + 1) n = x :: (xs ++ zeroRange ys 0 n)
    show x :: zeroRange (xs ++ ys) xs.length n = _
    rw [ih]

theorem pairsFrom_cons (prev : Option Nat) (q : Nat) (qs : List Nat) :
    pairsFrom prev (q :: qs) = (q, prev) :: pairsFrom (some q) qs := rfl

/-- The extraction loop on a structured tail: every stamp is confirmed,
its record words come back verbatim, its `block_len` is its distance to
the previous stamp start minus the record length, and the stream comes
back with every record zeroed. -/
theorem scanLoop_bodyFrom (segs : List (List Int × List Int)) (trailing : List Int) :
    ∀ (k : Nat) (prevPos : Nat) (d1 : List Int),
      d1.length = k →
      (∀ s ∈ segs, okPayload s.2) →
      scanLoop (d1 ++ bodyFrom segs trailing)
          (pairsFrom (some prevPos) ((posBody segs).map (fun x => k + x))) =
        (d1 ++ zeroBody segs trailing, rowsSpec segs k prevPos) := by
  induction segs with
  | nil =>
    intro k prevPos d1 hd1 hsegs
    rfl
  | cons s rest ih =>
    intro k prevPos d1 hd1 hsegs
    obtain ⟨b, pl⟩ := s
    have hpl : okPayload pl := hsegs (b, pl) (List.mem_cons_self _ _)
    have hrest : ∀ s ∈ rest, okPayload s.2 :=
      fun s hs => hsegs s (List.mem_cons_of_mem _ hs)
    have hms : (mkStamp pl).length = gps_bytes := by
      simp [mkStamp, hpl.1, gps_bytes]
    -- the stream in left-associated form
    have hD : d1 ++ bodyFrom ((b, pl) :: rest) trailing =
        (d1 ++ b) ++ (mkStamp pl ++ bodyFrom rest trailing) := by
      show d1 ++ (b ++ (mkStamp pl ++ bodyFrom rest trailing)) = _
      rw [List.append_assoc]
    have hlen2 : (d1 ++ b).length = k + b.length := by simp [hd1]
    -- the pair list in cons form
    have hpairs : pairsFrom (some prevPos) ((posBody ((b, pl) :: rest)).map (fun x => k + x)) =
        (k + b.length, some prevPos) :: pairsFrom (some (k + b.length))
          ((posBody rest).map (fun x => k + b.length + 16 + x)) := by
      show pairsFrom (some prevPos)
          ((b.length :: (posBody rest).map (fun x => b.length + 16 + x)).map
            (fun x => k + x)) = _
      rw [List.map_cons, List.map_map, pairsFrom_cons]
      congr 2
      apply List.map_congr_left
      intro x _
      simp only [Function.comp_apply]
      omega
    rw [hD, hpairs]
    -- the confirmed-candidate step
    have hq : ((d1 ++ b) ++ (mkStamp pl ++ bodyFrom rest trailing)).get? (k + b.length + 1) =
        some gps_flag_1 := by
      rw [List.get?_append_right (by omega)]
      have he : k + b.length + 1 - (d1 ++ b).length = 1 := by omega
      rw [he]
      rfl
    rw [scanLoop_cons_confirm _ _ _ _ hq]
    -- the packed words are the record itself
    have hwords : (((d1 ++ b) ++ (mkStamp pl ++ bodyFrom rest trailing)).drop
        (k + b.length)).take gps_bytes = mkStamp pl := by
      rw [← hlen2, List.drop_left, ← hms, List.take_left]
    -- zeroing the record
    have hzero : zeroRange ((d1 ++ b) ++ (mkStamp pl ++ bodyFrom rest trailing))
        (k + b.length) gps_bytes =
        ((d1 ++ b) ++ List.replicate gps_bytes 0) ++ bodyFrom rest trailing := by
      rw [← hlen2, zeroRange_append_offset, ← hms, zeroRange_append_zero, hms]
      simp [List.append_assoc]
    rw [hzero]
    -- recurse on the rest
    have hd1' : ((d1 ++ b) ++ List.replicate gps_bytes 0).length = k + b.length + 16 := by
      simp [hd1, gps_bytes]
      omega
    have hassoc : ((d1 ++ b) ++ List.replicate gps_bytes 0) ++ bodyFrom rest trailing =
        ((d1 ++ b) ++ List.replicate gps_bytes 0) ++ bodyFrom rest trailing := rfl
    rw [ih (k + b.length + 16) (k + b.length) ((d1 ++ b) ++ List.replicate gps_bytes 0)
      hd1' hrest]
    -- assemble
    show ((((d1 ++ b) ++ List.replicate gps_bytes 0) ++ zeroBody rest trailing),
        (some ⟨k + b.length, _, _⟩ : Option Stamp) :: rowsSpec rest (k + b.length + 16) (k + b.length)) = _
    refine Prod.ext ?_ ?_
    · show ((d1 ++ b) ++ List.replicate gps_bytes 0) ++ zeroBody rest trailing =
        d1 ++ zeroBody ((b, pl) :: rest) trailing
      show _ = d1 ++ (b ++ (List.replicate 16 0 ++ zeroBody rest trailing))
      simp [List.append_assoc, gps_bytes]
    · show (some ⟨k + b.length, (((d1 ++ b) ++ (mkStamp pl ++ bodyFrom rest trailing)).drop
          (k + b.length)).take gps_bytes, _⟩ : Option Stamp) ::
          rowsSpec rest (k + b.length + 16) (k + b.length) =
        rowsSpec ((b, pl) :: rest) k prevPos
      rw [hwords]
      rfl


/-! ## C2 groundwork: the nonzero filter and block-length sums -/

theorem filter_nonzero_replicate (n : Nat) :
    (List.replicate n (0 : Int)).filter (fun x => !(x == 0)) = [] := by
  induction n with
  | zero => rfl
  | succ n ih => simp [List.replicate_succ, List.filter_cons, ih]

theorem filter_nonzero_of_okFill (b : List Int) (h : okFill b) :
    b.filter (fun x => !(x == 0)) = b := by
  rw [List.filter_eq_self]
  intro x hx
  simp only [Bool.not_eq_true', beq_eq_false_iff_ne]
  exact (h x hx).2

theorem filter_nonzero_zeroBody (segs : List (List Int × List Int)) (trailing : List Int)
    (hsegs : ∀ s ∈ segs, okFill s.1) (htrail : okFill trailing) :
    (zeroBody segs trailing).filter (fun x => !(x == 0)) =
      (segs.map Prod.fst).join ++ trailing := by
  induction segs with
  | nil => exact filter_nonzero_of_okFill trailing htrail
  | cons s rest ih =>
    obtain ⟨b, pl⟩ := s
    show ((b ++ (List.replicate 16 0 ++ zeroBody rest trailing)).filter
      (fun x => !(x == 0))) = _
    rw [List.filter_append, List.filter_append,
      filter_nonzero_of_okFill b ((hsegs (b, pl) (List.mem_cons_self _ _))),
      filter_nonzero_replicate,
      ih (fun s hs => hsegs s (List.mem_cons_of_mem _ hs)), List.nil_append]
    show _ = (b ++ ((rest.map Prod.fst).join)) ++ trailing
    rw [List.append_assoc]

theorem rowsSpec_blockLen_sum (segs : List (List Int × List Int)) :
    ∀ (k pv : Nat), pv + 16 = k →
      ((rowsSpec segs k pv).map rowBlockLen).sum =
        (((segs.map (fun s => s.1.length)).sum : Nat) : Int) := by
  induction segs with
  | nil => intro k pv _; rfl
  | cons s rest ih =>
    intro k pv hk
    obtain ⟨b, pl⟩ := s
    show rowBlockLen (some ⟨k + b.length, mkStamp pl,
        ((k + b.length : Nat) : Int) - (pv : Int) - (gps_bytes : Int)⟩) +
      ((rowsSpec rest (k + b.length + 16) (k + b.length)).map rowBlockLen).sum = _
    rw [ih (k + b.length + 16) (k + b.length) (by omega)]
    show ((k + b.length : Nat) : Int) - (pv : Int) - (gps_bytes : Int) +
        (((rest.map (fun s => s.1.length)).sum : Nat) : Int) =
      (((b.length + (rest.map (fun s => s.1.length)).sum : Nat)) : Int)
    have hgb : (gps_bytes : Int) = 16 := rfl
    rw [hgb]
    push_cast
    omega

theorem rowsSpec_blockLen_mem (segs : List (List Int × List Int)) :
    ∀ (k pv : Nat), pv + 16 = k →
      ∀ r ∈ rowsSpec segs k pv, ∃ s ∈ segs, rowBlockLen r = (s.1.length : Int) := by
  induction segs with
  | nil => intro k pv _ r hr; simp [rowsSpec] at hr
  | cons s rest ih =>
    intro k pv hk r hr
    obtain ⟨b, pl⟩ := s
    rcases List.mem_cons.mp hr with hr | hr
    · refine ⟨(b, pl), List.mem_cons_self _ _, ?_⟩
      subst hr
      show ((k + b.length : Nat) : Int) - (pv : Int) - (gps_bytes : Int) = _
      have hgb : (gps_bytes : Int) = 16 := rfl
      rw [hgb]
      push_cast
      omega
    · obtain ⟨s, hs, he⟩ := ih (k + b.length + 16) (k + b.length) (by omega) r hr
      exact ⟨s, List.mem_cons_of_mem _ hs, he⟩

/-- When every block length after the first stamp equals the sampling
rate, `validate_time_blocks` finds no bad block and returns the state
unchanged. -/
theorem validate_time_blocks_ok (ad_rate : Int) (s : ZenState)
    (h : ∀ r ∈ s.gps_stamps.drop 1, rowBlockLen r = ad_rate) :
    validate_time_blocks ad_rate s = .ok s := by
  have hbad : (List.range (s.gps_stamps.length - 1)).filter
      (fun i => !(rowBlockLen (s.gps_stamps.getD (i + 1) none) == ad_rate)) = [] := by
    rw [List.filter_eq_nil]
    intro i hi
    have hi2 := List.mem_range.mp hi
    have hg : s.gps_stamps.get? (i + 1) ≠ none := by
      rw [ne_eq, List.get?_eq_none]
      omega
    cases hg2 : s.gps_stamps.get? (i + 1) with
    | none => exact absurd hg2 hg
    | some r =>
      have hmem : r ∈ s.gps_stamps.drop 1 := by
        have : (s.gps_stamps.drop 1).get? i = some r := by
          rw [List.get?_eq_getElem?, List.getElem?_drop, ← List.get?_eq_getElem?]
          rw [show 1 + i = i + 1 from by omega]
          exact hg2
        exact List.get?_mem this
      have hr := h r hmem
      have hd : s.gps_stamps.getD (i + 1) none = r := by
        rw [List.getD_eq_getElem?_getD, ← List.get?_eq_getElem?, hg2]
        rfl
      rw [hd]
      simp [hr]
  simp only [validate_time_blocks, hbad]
  rfl


theorem withPrev_cons (q : Nat) (qs : List Nat) :
    withPrev (q :: qs) = (q, none) :: pairsFrom (some q) qs := rfl

/-- The whole extraction loop on a structured stream: first stamp at
position 0 with `block_len` 0, every further stamp confirmed with its
sample-block length, and all record words zeroed. -/
theorem scanLoop_structured (pl0 : List Int) (segs : List (List Int × List Int))
    (trailing : List Int) (h0 : okPayload pl0)
    (hsegs : ∀ s ∈ segs, okFill s.1 ∧ okPayload s.2)
    (htrail : okFill trailing) :
    scanLoop (mkStamp pl0 ++ bodyFrom segs trailing)
        (withPrev (gps_stamp_find (mkStamp pl0 ++ bodyFrom segs trailing))) =
      (List.replicate 16 0 ++ zeroBody segs trailing,
        some ⟨0, mkStamp pl0, 0⟩ :: rowsSpec segs 16 0) := by
  have hms : (mkStamp pl0).length = gps_bytes := by
    simp [mkStamp, h0.1, gps_bytes]
  have hpos : gps_stamp_find (mkStamp pl0 ++ bodyFrom segs trailing) =
      0 :: (posBody segs).map (fun x => 16 + x) := by
    rw [gps_stamp_find_mkStamp_append pl0 _ h0,
      gps_stamp_find_bodyFrom segs trailing
        (fun s hs => ⟨fun w hw => ((hsegs s hs).1 w hw).1, (hsegs s hs).2⟩)
        (fun w hw => (htrail w hw).1)]
  rw [hpos, withPrev_cons]
  have hq : (mkStamp pl0 ++ bodyFrom segs trailing).get? 1 = some gps_flag_1 := rfl
  rw [scanLoop_cons_confirm _ _ _ _ hq]
  have hzr : zeroRange (mkStamp pl0 ++ bodyFrom segs trailing) 0 gps_bytes =
      List.replicate gps_bytes 0 ++ bodyFrom segs trailing := by
    rw [← hms, zeroRange_append_zero, hms]
  rw [hzr]
  have hrep : (List.replicate gps_bytes (0 : Int)).length = 16 := by
    simp [gps_bytes]
  rw [scanLoop_bodyFrom segs trailing 16 0 (List.replicate gps_bytes 0) hrep
    (fun s hs => (hsegs s hs).2)]
  have hwords : ((mkStamp pl0 ++ bodyFrom segs trailing).drop 0).take gps_bytes =
      mkStamp pl0 := by
    rw [List.drop_zero, ← hms, List.take_left]
  rw [hwords]
  rfl

/-- The scan pass on a structured stream: the stamp rows, and the sample
sequence, which keeps every sample block and the trailing words. -/
theorem scan_pass_structured (pl0 : List Int) (segs : List (List Int × List Int))
    (trailing : List Int) (h0 : okPayload pl0)
    (hsegs : ∀ s ∈ segs, okFill s.1 ∧ okPayload s.2)
    (htrail : okFill trailing) :
    scan_pass (mkStamp pl0 ++ bodyFrom segs trailing) =
      ⟨some ⟨0, mkStamp pl0, 0⟩ :: rowsSpec segs 16 0,
        (segs.map Prod.fst).join ++ trailing, none⟩ := by
  unfold scan_pass
  rw [scanLoop_structured pl0 segs trailing h0 hsegs htrail]
  have hfilter : (List.replicate 16 (0 : Int) ++ zeroBody segs trailing).filter
      (fun x => !(x == 0)) = (segs.map Prod.fst).join ++ trailing := by
    rw [List.filter_append, filter_nonzero_replicate, List.nil_append,
      filter_nonzero_zeroBody segs trailing (fun s hs => (hsegs s hs).1) htrail]
  show (⟨some ⟨0, mkStamp pl0, 0⟩ :: rowsSpec segs 16 0,
      (List.replicate 16 (0 : Int) ++ zeroBody segs trailing).filter (fun x => !(x == 0)),
      none⟩ : ZenState) = _
  rw [hfilter]

/-- C2 amended: on every decoded recording whose stream is three leading
spurious sentinels followed by a first stamp record, sample blocks of
the declared rate alternating with stamp records, and trailing sample
words (no stray sentinel words, no zero sample words), the decode
succeeds and the final sample count equals the sum of `block_len` over
the stamps after the first PLUS the number of sample words that follow
the last stamp record; the claimed invariant therefore holds exactly
when nothing follows the last stamp. -/
theorem c2_amended_sample_count (pl0 : List Int) (segs : List (List Int × List Int))
    (trailing : List Int) (ad_rate : Int)
    (h0 : okPayload pl0)
    (hsegs : ∀ s ∈ segs, okFill s.1 ∧ okPayload s.2 ∧ (s.1.length : Int) = ad_rate)
    (htrail : okFill trailing) :
    read_z3d (junkWords ++ (mkStamp pl0 ++ bodyFrom segs trailing)) ad_rate =
      Except.ok ⟨some ⟨0, mkStamp pl0, 0⟩ :: rowsSpec segs 16 0,
        (segs.map Prod.fst).join ++ trailing, none⟩
    ∧ (((segs.map Prod.fst).join ++ trailing).length : Int) =
        blockLenSumTail (some ⟨0, mkStamp pl0, 0⟩ :: rowsSpec segs 16 0) +
          (trailing.length : Int) := by
  have hsegs2 : ∀ s ∈ segs, okFill s.1 ∧ okPayload s.2 :=
    fun s hs => ⟨(hsegs s hs).1, (hsegs s hs).2.1⟩
  have hpos : gps_stamp_find (mkStamp pl0 ++ bodyFrom segs trailing) =
      0 :: (posBody segs).map (fun x => 16 + x) := by
    rw [gps_stamp_find_mkStamp_append pl0 _ h0,
      gps_stamp_find_bodyFrom segs trailing
        (fun s hs => ⟨fun w hw => ((hsegs2 s hs).1 w hw).1, (hsegs2 s hs).2⟩)
        (fun w hw => (htrail w hw).1)]
  have hjunk : gps_stamp_find junkWords = [0, 2, 4] := by decide
  have hfind : gps_stamp_find (junkWords ++ (mkStamp pl0 ++ bodyFrom segs trailing)) =
      [0, 2, 4] ++ ((0 : Nat) :: (posBody segs).map (fun x => 16 + x)).map
        (fun i => junkWords.length + i) := by
    rw [gps_stamp_find_append, hjunk, hpos]
  have hget3 : (gps_stamp_find (junkWords ++ (mkStamp pl0 ++ bodyFrom segs trailing))).get? 3 =
      some 6 := by
    rw [hfind]
    rfl
  have hdrop : (junkWords ++ (mkStamp pl0 ++ bodyFrom segs trailing)).drop 6 =
      mkStamp pl0 ++ bodyFrom segs trailing :=
    List.drop_left junkWords _
  have hscan := scan_pass_structured pl0 segs trailing h0 hsegs2 htrail
  have hvalid : validate_time_blocks ad_rate
      ⟨some ⟨0, mkStamp pl0, 0⟩ :: rowsSpec segs 16 0,
        (segs.map Prod.fst).join ++ trailing, none⟩ =
      .ok ⟨some ⟨0, mkStamp pl0, 0⟩ :: rowsSpec segs 16 0,
        (segs.map Prod.fst).join ++ trailing, none⟩ := by
    apply validate_time_blocks_ok
    intro r hr
    have hr2 : r ∈ rowsSpec segs 16 0 := hr
    obtain ⟨s, hs, he⟩ := rowsSpec_blockLen_mem segs 16 0 (by omega) r hr2
    rw [he]
    exact (hsegs s hs).2.2
  constructor
  · simp only [read_z3d, hget3, hdrop, hscan, hvalid]
  · rw [blockLenSumTail]
    show (((segs.map Prod.fst).join ++ trailing).length : Int) =
      ((rowsSpec segs 16 0).map rowBlockLen).sum + (trailing.length : Int)
    rw [rowsSpec_blockLen_sum segs 16 0 (by omega), List.length_append, List.length_join,
      List.map_map]
    have hmm : segs.map (List.length ∘ Prod.fst) = segs.map (fun s => s.1.length) :=
      List.map_congr_left (fun s _ => rfl)
    rw [hmm]
    push_cast
    omega


/-- A concrete 14-word stamp payload with no sentinel words. -/
def pay9 : List Int := [9, 9, 9, 9, 9, 9, 9, 9, 9, 9, 9, 9, 9, 9]

/-- C2 counterexample: a recording with two stamps, one good block of
four samples between them, and three trailing samples decodes
successfully to 7 retained samples while the block lengths after the
first stamp sum to 4. -/
theorem c2_counterexample :
    (read_z3d (junkWords ++ (mkStamp pay9 ++ bodyFrom [([1, 1, 1, 1], pay9)] [1, 1, 1])) 4).map
        (fun st => ((st.ts.length : Int), blockLenSumTail st.gps_stamps)) =
      Except.ok (7, 4)
    ∧ (7 : Int) ≠ 4 := by
  exact ⟨rfl, by decide⟩

/-- C2 witness: the amended count at a concrete recording with one
four-sample block and two trailing samples. -/
theorem c2_witness :
    read_z3d (junkWords ++ (mkStamp pay9 ++ bodyFrom [([1, 1, 1, 1], pay9)] [1, 1])) 4 =
      Except.ok ⟨some ⟨0, mkStamp pay9, 0⟩ :: rowsSpec [([1, 1, 1, 1], pay9)] 16 0,
        ([([1, 1, 1, 1], pay9)].map Prod.fst).join ++ [1, 1], none⟩
    ∧ ((([([1, 1, 1, 1], pay9)].map Prod.fst).join ++ [1, 1]).length : Int) =
        blockLenSumTail (some ⟨0, mkStamp pay9, 0⟩ :: rowsSpec [([1, 1, 1, 1], pay9)] 16 0) +
          (([1, 1] : List Int).length : Int) :=
  c2_amended_sample_count pay9 [([1, 1, 1, 1], pay9)] [1, 1] 4 (by decide)
    (by decide) (by decide)

/-- C1: on a recording whose second and third stamps have short blocks
(lengths 2 and 3 against a declared rate of 4) followed by good blocks,
`validate_time_blocks` takes its trim branch and the decode fails with
`AttributeError`, because the branch slices `self.time_series`, an
attribute `read_z3d` never assigns. -/
theorem c1_trim_attribute_error :
    read_z3d (junkWords ++ (mkStamp pay9 ++
        bodyFrom [([1, 1], pay9), ([1, 1, 1], pay9), ([1, 1, 1, 1], pay9),
          ([1, 1, 1, 1], pay9)] [])) 4 =
      Except.error ZenErr.attributeError := rfl

end Zen
